import Mathlib

/-!
Shallow embedding of `rubikscubennnsolver/LookupTableIDAViaGraph.py`.

The Python class `LookupTableIDAViaGraph` drives an IDA* search over one or
more prune-table graphs.  Pure data is translated directly; the mutable
fields of the class (`self.explored`, `self.ida_nodes`, `self.ida_count`,
the per-prune-table scratch field `pt.ida_graph_node`, and the parent
puzzle's `state`/`solution`) become explicitly threaded values.  External
collaborators that live outside this source file (the parent puzzle's
`rotate`/`nuke_*` methods, the `steps_on_same_face_and_layer` relation and
each prune table's `state_index` encoder) are abstract parameters, exactly
as the spec treats them (interface-only collaborators).
-/

namespace RubiksIda

/-- Moves are the plain move symbols ("U", "Fw2", ...). -/
abbrev Move := String

/-- The mutable search bookkeeping of the class: `self.ida_count`,
`self.explored` (dict aggregate-node -> cost_to_here) and `self.ida_nodes`
(dict aggregate-node -> steps).  Python dicts iterate in insertion order;
they are modelled as association lists with insertion-order preserving
overwrite (`dictInsert`). -/
structure SearchState where
  ida_count : Nat
  explored : List (List Nat × Nat)
  ida_nodes : List (List Nat × List Move)
deriving DecidableEq, Repr

/-- The parent puzzle's externally visible mutable fields: `parent.state`
(a list of color labels) and `parent.solution` (the move log). -/
structure Parent where
  state : List String
  solution : List Move
deriving DecidableEq, Repr

/-- External collaborator methods of the parent puzzle (outside this source
file), kept abstract: `parent.rotate` and the three `nuke_*` hooks. -/
structure Collab where
  rotate : Parent → Move → Parent
  nukeCorners : List String → List String
  nukeEdges : List String → List String
  nukeCenters : List String → List String

/-- The per-instance configuration of `LookupTableIDAViaGraph` after
`__init__`: the constructed `self.moves_all`, the external
`steps_on_same_face_and_layer` relation (first argument may be `None`),
each prune table's loaded `pt.ida_graph` byte buffer (a byte at each
index), and the recolor configuration fields. -/
structure Ctx where
  moves_all : List Move
  sfl : Option Move → Move → Bool
  graphs : List (Nat → Nat)
  nuke_corners : Bool
  nuke_edges : Bool
  nuke_centers : Bool
  recolor_positions : List Nat
  recolor_map : String → Option String
  avoid_oll : Bool

/-- `self.ROW_LENGTH = COST_LENGTH + STATE_INDEX_LENGTH * len(self.moves_all)`
with `COST_LENGTH = 1`, `STATE_INDEX_LENGTH = 4`. -/
def Ctx.rowLength (ctx : Ctx) : Nat :=
  1 + 4 * ctx.moves_all.length

/-- Python `dict` lookup: first binding of the key (keys are unique). -/
def dictGet {α β : Type} [DecidableEq α] : List (α × β) → α → Option β
  | [], _ => none
  | (k', v) :: rest, k => if k' = k then some v else dictGet rest k

/-- Python `d[k] = v`: overwrite in place if the key is present (keeping its
position in insertion order), otherwise append at the end. -/
def dictInsert {α β : Type} [DecidableEq α] (d : List (α × β)) (k : α) (v : β) :
    List (α × β) :=
  if (dictGet d k).isSome then
    d.map (fun p => if p.1 = k then (k, v) else p)
  else
    d ++ [(k, v)]

/-- The loop body of `ida_heuristic` (also inlined, verbatim, at the top of
`ida_search`): accumulate the per-table nodes into `lt_state` and take the
running maximum of each table's cost byte `pt.ida_graph[node * ROW_LENGTH]`. -/
def hLoop (rowLength : Nat) : List ((Nat → Nat) × Nat) → List Nat → Nat → List Nat × Nat
  | [], lt_state, cost_to_goal => (lt_state, cost_to_goal)
  | (g, n) :: rest, lt_state, cost_to_goal =>
      let pt_cost_to_goal := g (n * rowLength)
      hLoop rowLength rest (lt_state ++ [n])
        (if cost_to_goal < pt_cost_to_goal then pt_cost_to_goal else cost_to_goal)

/-- `ida_heuristic`: returns `(tuple(lt_state), cost_to_goal)` for the given
per-table `pt.ida_graph_node` values. -/
def ida_heuristic (ctx : Ctx) (nodes : List Nat) : List Nat × Nat :=
  hLoop ctx.rowLength (ctx.graphs.zip nodes) [] 0

/-- `struct.unpack(">L", pt.ida_graph[start:start+4])[0]`: big-endian 32-bit
read of four bytes of the graph buffer. -/
def be32 (g : Nat → Nat) (start : Nat) : Nat :=
  ((g start * 256 + g (start + 1)) * 256 + g (start + 2)) * 256 + g (start + 3)

/-- Advancing every prune table's node by one move (lines 186-192): for each
table, read the successor index at
`node * ROW_LENGTH + 1 + step_index[step] * 4`. -/
def applyMove (ctx : Ctx) (step : Move) (nodes : List Nat) : List Nat :=
  (ctx.graphs.zip nodes).map
    (fun gn => be32 gn.1 (gn.2 * ctx.rowLength + 1 + ctx.moves_all.indexOf step * 4))

/-- `self.steps_not_on_same_face_and_layer[prev]`, as built in `__init__`:
the moves of `moves_all`, in declaration order, that are not
same-face-and-layer related to `prev`. -/
def stepsNotSFL (ctx : Ctx) (prev : Option Move) : List Move :=
  ctx.moves_all.filter (fun s => !ctx.sfl prev s)

/-- The candidate loop of `ida_search` (lines 161-208).  `recCall` is the
recursive `self.ida_search` call; `nodes` is `prev_ida_graph_nodes` (the
reset value for the per-table scratch); `scratch` tracks the current
per-table `pt.ida_graph_node` values, which the Python code leaves mutated
when the loop returns.  The result is `((f_cost, found), scratch', state')`. -/
def ida_loop (ctx : Ctx)
    (recCall : Nat → List Move → Nat → Option Move → List Nat → SearchState →
      (Nat × Bool) × List Nat × SearchState)
    (cost_to_here : Nat) (steps_to_here : List Move) (threshold : Nat)
    (nodes : List Nat) (f_cost : Nat) :
    List Move → Option Move → List Nat → SearchState →
      (Nat × Bool) × List Nat × SearchState
  | [], _, scratch, s => ((f_cost, false), scratch, s)
  | step :: rest, skip_other_steps_this_face, scratch, s =>
      if (match skip_other_steps_this_face with
          | some sk => ctx.sfl (some sk) step
          | none => false) then
        ida_loop ctx recCall cost_to_here steps_to_here threshold nodes f_cost
          rest skip_other_steps_this_face scratch s
      else
        let curr_ida_graph_nodes := applyMove ctx step nodes
        match recCall (cost_to_here + 1) (steps_to_here ++ [step]) threshold
            (some step) curr_ida_graph_nodes s with
        | ((f_cost_tmp, found_solution), scratch', s') =>
          if found_solution then
            ((f_cost_tmp, true), scratch', s')
          else
            ida_loop ctx recCall cost_to_here steps_to_here threshold nodes f_cost
              rest (if threshold < f_cost_tmp then some step else none) scratch' s'

/-- `ida_search(cost_to_here, steps_to_here, threshold, prev_step,
prev_ida_graph_nodes)`.  `nodes` plays both the role of the argument and of
the per-table scratch values, which coincide at every call site.  The extra
`fuel` argument only bounds the recursion depth; the search recurses with
`cost_to_here + 1` under `f_cost < threshold`, so any
`fuel` large enough never reaches the `0` branch, and every theorem below
holds for all fuel values. -/
def ida_search (ctx : Ctx) :
    Nat → Nat → List Move → Nat → Option Move → List Nat → SearchState →
      (Nat × Bool) × List Nat × SearchState
  | 0, _, _, _, _, nodes, s => ((0, false), nodes, s)
  | fuel + 1, cost_to_here, steps_to_here, threshold, prev_step, nodes, s =>
      let s1 : SearchState := { s with ida_count := s.ida_count + 1 }
      let h := ida_heuristic ctx nodes
      let f_cost := cost_to_here + h.2
      if threshold ≤ f_cost then
        ((f_cost, false), nodes, s1)
      else if h.2 = 0 then
        ((f_cost, true), nodes,
          { s1 with ida_nodes := dictInsert s1.ida_nodes h.1 steps_to_here })
      else if (dictGet s1.explored h.1).getD 99 ≤ cost_to_here then
        ((f_cost, false), nodes, s1)
      else
        ida_loop ctx
          (fun c st t pv nd s2 => ida_search ctx fuel c st t pv nd s2)
          cost_to_here steps_to_here threshold nodes f_cost
          (stepsNotSFL ctx prev_step) none nodes
          { s1 with explored := dictInsert s1.explored h.1 cost_to_here }

/-- The accumulator loop of `get_best_ida_solution`: keep the first entry of
strictly minimal length (the update condition is `steps_len < min_steps_len`). -/
def get_best_loop (cur : Option (List Move)) :
    List (List Nat × List Move) → Option (List Move)
  | [] => cur
  | kv :: rest =>
      match cur with
      | none => get_best_loop (some kv.2) rest
      | some m =>
          if kv.2.length < m.length then get_best_loop (some kv.2) rest
          else get_best_loop (some m) rest

/-- `get_best_ida_solution`: minimum-length entry of `self.ida_nodes` in
insertion order, `None` when the dict is empty. -/
def get_best_ida_solution (d : List (List Nat × List Move)) : Option (List Move) :=
  get_best_loop none d

/-- `recolor` (lines 212-240): when any nuke flag or a recolor position is
set, apply the nuke hooks and then remap the colors at `recolor_positions`
through `recolor_map` (a missing or empty replacement leaves the sticker
unchanged, matching the Python truthiness test on `x_new_color`). -/
def recolor (ctx : Ctx) (cb : Collab) (p : Parent) : Parent :=
  if ctx.nuke_corners || ctx.nuke_edges || ctx.nuke_centers ||
      !ctx.recolor_positions.isEmpty then
    let st0 := if ctx.nuke_corners then cb.nukeCorners p.state else p.state
    let st1 := if ctx.nuke_edges then cb.nukeEdges st0 else st0
    let st2 := if ctx.nuke_centers then cb.nukeCenters st1 else st1
    let st3 := ctx.recolor_positions.foldl
      (fun st x =>
        let x_color := st.getD x ""
        match ctx.recolor_map x_color with
        | some x_new_color => if x_new_color ≠ "" then st.set x x_new_color else st
        | none => st) st2
    { p with state := st3 }
  else
    p

/-- Message of the `NoIDASolution` exception (both the empty-range raise and
the exhausted-thresholds raise use it). -/
def noIDASolutionMsg : String := "NoIDASolution: FAILED with range"

/-- The `avoid_oll` sanity block references `pformat`, which this module
never imports, so entering that block raises `NameError` before any search. -/
def nameErrorMsg : String := "NameError: pformat is not defined"

/-- Message of the constructor exception for a bad illegal move. -/
def illegalMoveMsg : String := "illegal move is not in the list of legal moves"

/-- The threshold loop of `solve` (lines 341-398).  Each iteration resets
`steps_to_here`, `ida_count`, `explored` and `ida_nodes`, reads the current
per-table scratch nodes (`get_ida_graph_nodes`, which the previous
iteration's search left mutated), runs `ida_search`, and applies the best
recorded solution to the pre-recolor snapshot if it is non-empty (Python's
`if best_solution:` is falsy both for `None` and for `[]`).  On exhaustion
(lines 400-409) `parent.state`/`parent.solution` are set to the
`original_*` snapshots (taken after `recolor`) and `NoIDASolution` is
raised; the error value carries the parent at raise time. -/
def solveLoop (ctx : Ctx) (cb : Collab) (fuel : Nat) (prePar origPar : Parent) :
    List Nat → List Nat → Except (String × Parent) (Parent × List Move)
  | [], _ => .error (noIDASolutionMsg, origPar)
  | threshold :: rest, nodes =>
      match ida_search ctx fuel 0 [] threshold none nodes ⟨0, [], []⟩ with
      | (_, nodes', s1) =>
        match get_best_ida_solution s1.ida_nodes with
        | some best =>
            if best.isEmpty then
              solveLoop ctx cb fuel prePar origPar rest nodes'
            else
              .ok (best.foldl cb.rotate prePar, best)
        | none => solveLoop ctx cb fuel prePar origPar rest nodes'

/-- `solve(min_ida_threshold, max_ida_threshold)` (lines 256-409).
`rootNodes` stands for the result of `init_ida_graph_nodes` (each prune
table's `state_index()` of the recolored parent — an external encoder).
Before anything else the parent is snapshotted (`pre_recolor_*` = the input
`p`), recolored, and snapshotted again (`original_*`).  A set `avoid_oll`
raises `NameError` (see `nameErrorMsg`).  `min_ida_threshold` defaults to
the root heuristic; an empty range raises `NoIDASolution` immediately
(without touching the parent, which still holds the recolored state). -/
def solve (ctx : Ctx) (cb : Collab) (fuel : Nat) (p : Parent) (rootNodes : List Nat)
    (min_ida_threshold : Option Nat) (max_ida_threshold : Nat) :
    Except (String × Parent) (Parent × List Move) :=
  let p1 := recolor ctx cb p
  if ctx.avoid_oll then
    .error (nameErrorMsg, p1)
  else
    let cost_to_goal := (ida_heuristic ctx rootNodes).2
    let minT := min_ida_threshold.getD cost_to_goal
    if max_ida_threshold + 1 ≤ minT then
      .error (noIDASolutionMsg, p1)
    else
      solveLoop ctx cb fuel p p1
        (List.range' minT (max_ida_threshold + 1 - minT)) rootNodes

/-- The `moves_all` construction of `__init__` (lines 48-59): every supplied
illegal move must belong to the superset, else the constructor raises; the
result is the `legal_moves` list verbatim when that list is non-empty
(Python's truthiness test `if legal_moves:`), otherwise the superset with
the illegal moves removed, in superset order. -/
def init_moves_all (moves_all moves_illegal legal_moves : List Move) :
    Except String (List Move) :=
  if moves_illegal.all (fun x => moves_all.contains x) then
    .ok (if legal_moves.isEmpty then
           moves_all.filter (fun x => !moves_illegal.contains x)
         else legal_moves)
  else
    .error illegalMoveMsg

/-- No two consecutive moves of the list are same-face-and-layer related. -/
def chainOK (ctx : Ctx) : List Move → Bool
  | [] => true
  | [_] => true
  | a :: b :: rest => !ctx.sfl (some a) b && chainOK ctx (b :: rest)

/-- Every entry of `dictInsert d k v` is an entry of `d` or the new binding. -/
theorem mem_dictInsert {α β : Type} [DecidableEq α] {d : List (α × β)} {k : α}
    {v : β} {x : α × β} (h : x ∈ dictInsert d k v) : x ∈ d ∨ x = (k, v) := by
  unfold dictInsert at h
  split at h
  · rcases List.mem_map.mp h with ⟨p, hp, hx⟩
    by_cases hk : p.1 = k
    · rw [if_pos hk] at hx
      exact Or.inr hx.symm
    · rw [if_neg hk] at hx
      exact Or.inl (hx ▸ hp)
  · rcases List.mem_append.mp h with h | h
    · exact Or.inl h
    · simp only [List.mem_singleton] at h
      exact Or.inr h

/-- `recolor` only rewrites sticker colors; the solution log is untouched. -/
theorem recolor_solution (ctx : Ctx) (cb : Collab) (p : Parent) :
    (recolor ctx cb p).solution = p.solution := by
  unfold recolor
  split <;> rfl

/-- The heuristic loop appends the visited nodes and computes the running
maximum of the per-table cost bytes: the result is an upper bound of the
accumulator and of every table cost, and is attained by one of them. -/
theorem hLoop_spec (rowLength : Nat) (l : List ((Nat → Nat) × Nat)) :
    ∀ (acc : List Nat) (c : Nat),
      (hLoop rowLength l acc c).1 = acc ++ l.map (fun gn => gn.2) ∧
      c ≤ (hLoop rowLength l acc c).2 ∧
      (∀ gn ∈ l, gn.1 (gn.2 * rowLength) ≤ (hLoop rowLength l acc c).2) ∧
      ((hLoop rowLength l acc c).2 = c ∨
        ∃ gn ∈ l, (hLoop rowLength l acc c).2 = gn.1 (gn.2 * rowLength)) := by
  induction l with
  | nil => intro acc c; simp [hLoop]
  | cons gn rest ih =>
      intro acc c
      obtain ⟨g, n⟩ := gn
      have heq : hLoop rowLength ((g, n) :: rest) acc c =
          hLoop rowLength rest (acc ++ [n])
            (if c < g (n * rowLength) then g (n * rowLength) else c) := rfl
      set c' := if c < g (n * rowLength) then g (n * rowLength) else c with hc'
      have hcle : c ≤ c' := by
        rw [hc']; split
        · omega
        · exact le_refl c
      have hple : g (n * rowLength) ≤ c' := by
        rw [hc']; split
        · exact le_refl _
        · omega
      obtain ⟨ih1, ih2, ih3, ih4⟩ := ih (acc ++ [n]) c'
      refine ⟨?_, ?_, ?_, ?_⟩
      · rw [heq, ih1]; simp
      · rw [heq]; exact le_trans hcle ih2
      · rw [heq]
        intro x hx
        rcases List.mem_cons.mp hx with hx | hx
        · subst hx; exact le_trans hple ih2
        · exact ih3 x hx
      · rw [heq]
        rcases ih4 with h4 | ⟨x, hx, hval⟩
        · rw [hc'] at h4
          by_cases hlt : c < g (n * rowLength)
          · right
            refine ⟨(g, n), List.mem_cons_self _ _, ?_⟩
            rw [h4, if_pos hlt]
          · left
            rw [h4, if_neg hlt]
        · exact Or.inr ⟨x, List.mem_cons_of_mem _ hx, hval⟩

/-- C3: for every aggregate node, `ida_heuristic` returns the tuple of
per-table node indices together with `cost_to_goal` equal to the maximum
(not the sum) over all participating prune tables of byte 0 of that
table's row at offset `node * ROW_LENGTH`; it is a pure function of the
configuration and the nodes, so it has no side effects on the tables. -/
theorem C3_heuristic_is_max (ctx : Ctx) (nodes : List Nat) :
    (ida_heuristic ctx nodes).1 = (ctx.graphs.zip nodes).map (fun gn => gn.2) ∧
    (∀ gn ∈ ctx.graphs.zip nodes,
        gn.1 (gn.2 * ctx.rowLength) ≤ (ida_heuristic ctx nodes).2) ∧
    ((ida_heuristic ctx nodes).2 = 0 ∨
      ∃ gn ∈ ctx.graphs.zip nodes,
        (ida_heuristic ctx nodes).2 = gn.1 (gn.2 * ctx.rowLength)) := by
  obtain ⟨h1, _, h3, h4⟩ := hLoop_spec ctx.rowLength (ctx.graphs.zip nodes) [] 0
  exact ⟨by simpa [ida_heuristic] using h1, fun gn hgn => h3 gn hgn, h4⟩

/-- A list with no consecutive same-face pair stays that way after appending
a move not same-face related to its last element. -/
theorem chainOK_append (ctx : Ctx) :
    ∀ (steps : List Move) (m : Move),
      chainOK ctx steps = true →
      (steps = [] ∨ ∃ l, steps.getLast? = some l ∧ ctx.sfl (some l) m = false) →
      chainOK ctx (steps ++ [m]) = true
  | [], m, _, _ => by simp [chainOK]
  | [a], m, _, h2 => by
      rcases h2 with h | ⟨l, hl, hsfl⟩
      · simp at h
      · simp only [List.getLast?_singleton, Option.some.injEq] at hl
        subst hl
        simp [chainOK, hsfl]
  | a :: b :: rest, m, h1, h2 => by
      simp only [chainOK, Bool.and_eq_true] at h1
      have h2' : (b :: rest) = [] ∨
          ∃ l, (b :: rest).getLast? = some l ∧ ctx.sfl (some l) m = false := by
        rcases h2 with h | ⟨l, hl, hsfl⟩
        · exact absurd h (by simp)
        · exact Or.inr ⟨l, by rw [← List.getLast?_cons_cons]; exact hl, hsfl⟩
      have := chainOK_append ctx (b :: rest) m h1.2 h2'
      simpa [chainOK, h1.1] using this

/-- Graph of a single prune table whose every cost byte is 0: the root is
already a goal state, and every successor index is node 0. -/
def g1 : Nat → Nat := fun _ => 0

/-- One table, one move `U`, trivial same-face relation, no recolor: the
aggregate root node `[0]` has `cost_to_goal = 0`. -/
def ctx1 : Ctx :=
  { moves_all := ["U"], sfl := fun _ _ => false, graphs := [g1],
    nuke_corners := false, nuke_edges := false, nuke_centers := false,
    recolor_positions := [], recolor_map := fun _ => none, avoid_oll := false }

/-- A concrete parent collaborator: `rotate` appends the move to the
solution log. -/
def cb1 : Collab :=
  { rotate := fun p m => { p with solution := p.solution ++ [m] },
    nukeCorners := id, nukeEdges := id, nukeCenters := id }

/-- Graph with cost byte 1 at every node (`ROW_LENGTH = 5` for one move) and
successor index 0 everywhere: no goal state is ever reachable. -/
def g2 : Nat → Nat := fun i => if i % 5 = 0 then 1 else 0

/-- One table over `g2`, one move `U`, and a recolor step that maps the
color at position 0 from `"a"` to `"b"`. -/
def ctx2 : Ctx :=
  { moves_all := ["U"], sfl := fun _ _ => false, graphs := [g2],
    nuke_corners := false, nuke_edges := false, nuke_centers := false,
    recolor_positions := [0],
    recolor_map := fun c => if c = "a" then some "b" else none,
    avoid_oll := false }

/-- Graph where node 1 has cost 1 and its successor under the single move is
node 0, which has cost 0: the search from root `[1]` finds the one-move
solution `["U"]`. -/
def g7 : Nat → Nat := fun i => if i = 5 then 1 else 0

/-- One table over `g7`, one move `U`, trivial same-face relation. -/
def ctx7 : Ctx :=
  { moves_all := ["U"], sfl := fun _ _ => false, graphs := [g7],
    nuke_corners := false, nuke_edges := false, nuke_centers := false,
    recolor_positions := [], recolor_map := fun _ => none, avoid_oll := false }

/-- Same-face relation for the three-move instance: `U` and `U2` act on the
same face and layer, `F` only relates to itself. -/
def sfl6 : Option Move → Move → Bool
  | some a, b => ((a == "U" || a == "U2") && (b == "U" || b == "U2")) ||
      (a == "F" && b == "F")
  | none, _ => false

/-- Graph for the three-move instance (`ROW_LENGTH = 13`): node 0 has cost 1
and its successor under `U` is node 1, whose cost byte (offset 13) is 9, so
the recursive call overshoots any small threshold. -/
def g6 : Nat → Nat :=
  fun i => if i = 0 then 1 else if i = 4 then 1 else if i = 13 then 9 else 0

/-- Three moves `U`, `U2`, `F` with `sfl6` and `g6`. -/
def ctx6 : Ctx :=
  { moves_all := ["U", "U2", "F"], sfl := sfl6, graphs := [g6],
    nuke_corners := false, nuke_edges := false, nuke_centers := false,
    recolor_positions := [], recolor_map := fun _ => none, avoid_oll := false }

/-- Closed witness for `C3_heuristic_is_max`: a concrete one-table instance. -/
theorem C3_witness :
    (g7, 1) ∈ ctx7.graphs.zip [1] ∧
    g7 (1 * ctx7.rowLength) ≤ (ida_heuristic ctx7 [1]).2 :=
  ⟨List.mem_singleton.mpr rfl,
   (C3_heuristic_is_max ctx7 [1]).2.1 (g7, 1) (List.mem_singleton.mpr rfl)⟩

/-- C4: for every call of `ida_search`, if `costSoFar` plus the heuristic
`cost_to_goal` reaches the threshold, the call returns `(fCost, false)`
leaving the solution record, the explored memo and the scratch nodes
untouched (only `ida_count` is bumped for the call itself) — the goal test
is evaluated only after this cutoff passes: when the cutoff does pass and
`cost_to_goal = 0`, the call records `movesSoFar` and returns
`(fCost, true)`. -/
theorem C4_cutoff_before_goal (ctx : Ctx) (fuel cost_to_here : Nat)
    (steps_to_here : List Move) (threshold : Nat) (prev_step : Option Move)
    (nodes : List Nat) (s : SearchState) :
    (threshold ≤ cost_to_here + (ida_heuristic ctx nodes).2 →
      ida_search ctx (fuel + 1) cost_to_here steps_to_here threshold prev_step nodes s =
        ((cost_to_here + (ida_heuristic ctx nodes).2, false), nodes,
          { s with ida_count := s.ida_count + 1 })) ∧
    (cost_to_here + (ida_heuristic ctx nodes).2 < threshold →
      (ida_heuristic ctx nodes).2 = 0 →
      ida_search ctx (fuel + 1) cost_to_here steps_to_here threshold prev_step nodes s =
        ((cost_to_here, true), nodes,
          { s with ida_count := s.ida_count + 1,
                   ida_nodes := dictInsert s.ida_nodes (ida_heuristic ctx nodes).1
                     steps_to_here })) := by
  constructor
  · intro h
    simp only [ida_search]
    rw [if_pos h]
  · intro h1 h2
    simp only [ida_search]
    rw [if_neg (not_le.mpr h1), if_pos h2]
    simp [h2]

/-- Closed witness for `C4_cutoff_before_goal` at a concrete cutoff call. -/
theorem C4_witness :
    1 ≤ 0 + (ida_heuristic ctx2 [0]).2 ∧
    ida_search ctx2 1 0 [] 1 none [0] ⟨0, [], []⟩ =
      ((0 + (ida_heuristic ctx2 [0]).2, false), [0], ⟨1, [], []⟩) :=
  ⟨by decide,
   (C4_cutoff_before_goal ctx2 0 0 [] 1 none [0] ⟨0, [], []⟩).1 (by decide)⟩

/-- C5 (amended): past the cutoff and goal tests, a node found in the
explored memo at cost `≤ costSoFar` is pruned — and so is a node absent
from the memo when `costSoFar` reaches the dict-miss default 99, because
`self.explored.get(lt_state, 99)` returns 99 for a first visit; otherwise
the call records `costSoFar` for the node and expands the candidate loop. -/
theorem C5_explored_memo (ctx : Ctx) (fuel cost_to_here : Nat)
    (steps_to_here : List Move) (threshold : Nat) (prev_step : Option Move)
    (nodes : List Nat) (s : SearchState)
    (hf : cost_to_here + (ida_heuristic ctx nodes).2 < threshold)
    (hg : (ida_heuristic ctx nodes).2 ≠ 0) :
    ((dictGet s.explored (ida_heuristic ctx nodes).1).getD 99 ≤ cost_to_here →
      ida_search ctx (fuel + 1) cost_to_here steps_to_here threshold prev_step nodes s =
        ((cost_to_here + (ida_heuristic ctx nodes).2, false), nodes,
          { s with ida_count := s.ida_count + 1 })) ∧
    (cost_to_here < (dictGet s.explored (ida_heuristic ctx nodes).1).getD 99 →
      ida_search ctx (fuel + 1) cost_to_here steps_to_here threshold prev_step nodes s =
        ida_loop ctx (fun c st t pv nd s2 => ida_search ctx fuel c st t pv nd s2)
          cost_to_here steps_to_here threshold nodes
          (cost_to_here + (ida_heuristic ctx nodes).2)
          (stepsNotSFL ctx prev_step) none nodes
          { s with ida_count := s.ida_count + 1,
                   explored := dictInsert s.explored (ida_heuristic ctx nodes).1
                     cost_to_here }) := by
  constructor
  · intro h
    simp only [ida_search]
    rw [if_neg (not_le.mpr hf), if_neg hg, if_pos h]
  · intro h
    simp only [ida_search]
    rw [if_neg (not_le.mpr hf), if_neg hg, if_neg (not_le.mpr h)]

/-- Closed witness for `C5_explored_memo` at a concrete first visit with
`costSoFar = 0 < 99`: the node is recorded and the loop is expanded. -/
theorem C5_witness :
    ida_search ctx2 1 0 [] 2 none [0] ⟨0, [], []⟩ =
      ida_loop ctx2 (fun c st t pv nd s2 => ida_search ctx2 0 c st t pv nd s2)
        0 [] 2 [0] 1 (stepsNotSFL ctx2 none) none [0] ⟨1, [([0], 0)], []⟩ :=
  (C5_explored_memo ctx2 0 0 [] 2 none [0] ⟨0, [], []⟩
    (by decide) (by decide)).2 (by decide)

/-- C5 counterexample: a first visit (empty explored memo) at
`costSoFar = 99` under threshold 101 passes the cutoff and goal tests, yet
the call returns `(fCost, false)` without recording the node and without
expanding any candidate — refuting the claim's "including every first visit
of the node this iteration, at any costSoFar". -/
theorem C5_counterexample :
    ida_search ctx2 3 99 [] 101 none [0] ⟨0, [], []⟩ =
      ((100, false), [0], ⟨1, [], []⟩) ∧
    99 + (ida_heuristic ctx2 [0]).2 < 101 ∧
    (ida_heuristic ctx2 [0]).2 ≠ 0 ∧
    dictGet (⟨0, [], []⟩ : SearchState).explored (ida_heuristic ctx2 [0]).1 = none :=
  ⟨rfl, by decide, by decide, rfl⟩

/-- C6: in the candidate loop, a candidate that is same-face-layer related
to the current skip-face marker is skipped outright (no move application,
no recursion, no state change); and after a non-skipped candidate's
recursive call returns `found = false`, the loop continues over the
remaining candidates with the marker set to that candidate exactly when its
`fCost` exceeded the threshold, and cleared otherwise. -/
theorem C6_skip_face_marker (ctx : Ctx) (fuel cost_to_here : Nat)
    (steps_to_here : List Move) (threshold : Nat) (nodes : List Nat)
    (f_cost : Nat) (step : Move) (rest : List Move) (scratch : List Nat)
    (s : SearchState) :
    (∀ mk : Move, ctx.sfl (some mk) step = true →
      ida_loop ctx (fun c st t pv nd s2 => ida_search ctx fuel c st t pv nd s2)
          cost_to_here steps_to_here threshold nodes f_cost
          (step :: rest) (some mk) scratch s =
        ida_loop ctx (fun c st t pv nd s2 => ida_search ctx fuel c st t pv nd s2)
          cost_to_here steps_to_here threshold nodes f_cost
          rest (some mk) scratch s) ∧
    (∀ skip : Option Move,
      (match skip with
       | some sk => ctx.sfl (some sk) step
       | none => false) = false →
      ∀ (f_tmp : Nat) (scratch' : List Nat) (s' : SearchState),
        ida_search ctx fuel (cost_to_here + 1) (steps_to_here ++ [step]) threshold
            (some step) (applyMove ctx step nodes) s = ((f_tmp, false), scratch', s') →
        ida_loop ctx (fun c st t pv nd s2 => ida_search ctx fuel c st t pv nd s2)
            cost_to_here steps_to_here threshold nodes f_cost
            (step :: rest) skip scratch s =
          ida_loop ctx (fun c st t pv nd s2 => ida_search ctx fuel c st t pv nd s2)
            cost_to_here steps_to_here threshold nodes f_cost
            rest (if threshold < f_tmp then some step else none) scratch' s') := by
  constructor
  · intro mk hmk
    simp only [ida_loop]
    rw [if_pos hmk]
  · intro skip hskip f_tmp scratch' s' hrec
    simp only [ida_loop, hskip]
    rw [if_neg (by simp)]
    simp only [hrec]
    rw [if_neg (by simp)]

/-- Closed witness for `C6_skip_face_marker`: with marker `U` the
same-face candidate `U2` is skipped, and the candidate `U` whose child
returns `fCost = 10 > 3` becomes the next marker. -/
theorem C6_witness :
    (ida_loop ctx6 (fun c st t pv nd s2 => ida_search ctx6 1 c st t pv nd s2)
        0 [] 3 [0] 1 ["U2", "F"] (some "U") [0] ⟨0, [], []⟩ =
      ida_loop ctx6 (fun c st t pv nd s2 => ida_search ctx6 1 c st t pv nd s2)
        0 [] 3 [0] 1 ["F"] (some "U") [0] ⟨0, [], []⟩) ∧
    (ida_loop ctx6 (fun c st t pv nd s2 => ida_search ctx6 1 c st t pv nd s2)
        0 [] 3 [0] 1 ["U"] none [0] ⟨0, [], []⟩ =
      ida_loop ctx6 (fun c st t pv nd s2 => ida_search ctx6 1 c st t pv nd s2)
        0 [] 3 [0] 1 [] (some "U") [1] ⟨1, [], []⟩) :=
  ⟨(C6_skip_face_marker ctx6 1 0 [] 3 [0] 1 "U2" ["F"] [0] ⟨0, [], []⟩).1
      "U" (by decide),
   (C6_skip_face_marker ctx6 1 0 [] 3 [0] 1 "U" [] [0] ⟨0, [], []⟩).2
      none (by decide) 10 [1] ⟨1, [], []⟩ (by decide)⟩

/-- The path invariant maintained by the recursion: the accumulated
`steps_to_here` has no consecutive same-face pair, `prev_step` is its last
move (or the list is empty, as at the driver's root call), and
`cost_to_here` counts its moves. -/
def InvPS (ctx : Ctx) (prev : Option Move) (steps : List Move) (c : Nat) : Prop :=
  chainOK ctx steps = true ∧ (steps = [] ∨ steps.getLast? = prev) ∧ c = steps.length

/-- Any solution the candidate loop adds to `ida_nodes` (beyond what was
already there) has no consecutive same-face pair and is shorter than the
threshold, provided the recursive callee guarantees the same and the
candidate list avoids `prev`'s face. -/
theorem ida_loop_record (ctx : Ctx)
    (recCall : Nat → List Move → Nat → Option Move → List Nat → SearchState →
      (Nat × Bool) × List Nat × SearchState)
    (threshold : Nat)
    (hrec : ∀ (c' : Nat) (st' : List Move) (pv' : Option Move) (nd' : List Nat)
        (s' : SearchState), InvPS ctx pv' st' c' →
        ∀ kv ∈ (recCall c' st' threshold pv' nd' s').2.2.ida_nodes,
          kv ∈ s'.ida_nodes ∨ (chainOK ctx kv.2 = true ∧ kv.2.length < threshold))
    (cost_to_here : Nat) (steps_to_here : List Move) (prev : Option Move)
    (nodes : List Nat) (f_cost : Nat)
    (hInv : InvPS ctx prev steps_to_here cost_to_here) :
    ∀ list : List Move, (∀ x ∈ list, ctx.sfl prev x = false) →
    ∀ (skip : Option Move) (scratch : List Nat) (s : SearchState),
    ∀ kv ∈ (ida_loop ctx recCall cost_to_here steps_to_here threshold nodes f_cost
        list skip scratch s).2.2.ida_nodes,
      kv ∈ s.ida_nodes ∨ (chainOK ctx kv.2 = true ∧ kv.2.length < threshold) := by
  intro list
  induction list with
  | nil =>
      intro _ skip scratch s kv hkv
      exact Or.inl (by simpa [ida_loop] using hkv)
  | cons step rest ih =>
      intro hall skip scratch s kv hkv
      have hsfl : ctx.sfl prev step = false := hall step (List.mem_cons_self _ _)
      have hrest : ∀ x ∈ rest, ctx.sfl prev x = false :=
        fun x hx => hall x (List.mem_cons_of_mem _ hx)
      have hInv' : InvPS ctx (some step) (steps_to_here ++ [step]) (cost_to_here + 1) := by
        refine ⟨?_, Or.inr (List.getLast?_concat _), by simp [hInv.2.2]⟩
        apply chainOK_append ctx _ _ hInv.1
        cases hs : steps_to_here with
        | nil => exact Or.inl rfl
        | cons y ys =>
            right
            obtain ⟨l, hl⟩ := Option.isSome_iff_exists.mp
              (List.getLast?_isSome.mpr (List.cons_ne_nil y ys))
            refine ⟨l, hl, ?_⟩
            have h2 := hInv.2.1
            rw [hs] at h2
            rcases h2 with h | h
            · exact absurd h (List.cons_ne_nil y ys)
            · rw [hl] at h
              rw [← h] at hsfl
              exact hsfl
      simp only [ida_loop] at hkv
      split at hkv
      · exact ih hrest skip scratch s kv hkv
      · rcases hr : recCall (cost_to_here + 1) (steps_to_here ++ [step]) threshold
            (some step) (applyMove ctx step nodes) s with ⟨⟨f_tmp, found⟩, scratch', s'⟩
        rw [hr] at hkv
        have hchild : ∀ kv' ∈ s'.ida_nodes,
            kv' ∈ s.ida_nodes ∨ (chainOK ctx kv'.2 = true ∧ kv'.2.length < threshold) := by
          intro kv' hkv'
          have := hrec (cost_to_here + 1) (steps_to_here ++ [step]) (some step)
            (applyMove ctx step nodes) s hInv' kv'
          rw [hr] at this
          exact this hkv'
        by_cases hfound : found = true
        · rw [hfound] at hkv
          simp only [if_pos rfl] at hkv
          exact hchild kv hkv
        · rw [Bool.not_eq_true] at hfound
          rw [hfound] at hkv
          rw [if_neg Bool.false_ne_true] at hkv
          rcases ih hrest _ scratch' s' kv hkv with h | h
          · exact hchild kv h
          · exact Or.inr h

/-- Any solution `ida_search` adds to `ida_nodes`, starting from a path
satisfying the invariant, has no consecutive same-face pair and is shorter
than the threshold. -/
theorem ida_search_record (ctx : Ctx) (threshold : Nat) :
    ∀ (fuel cost_to_here : Nat) (steps_to_here : List Move) (prev : Option Move)
      (nodes : List Nat) (s : SearchState),
      InvPS ctx prev steps_to_here cost_to_here →
      ∀ kv ∈ (ida_search ctx fuel cost_to_here steps_to_here threshold prev nodes
          s).2.2.ida_nodes,
        kv ∈ s.ida_nodes ∨ (chainOK ctx kv.2 = true ∧ kv.2.length < threshold) := by
  intro fuel
  induction fuel with
  | zero =>
      intro c st pv nd s _ kv hkv
      exact Or.inl hkv
  | succ fuel ih =>
      intro c st pv nd s hInv kv hkv
      simp only [ida_search] at hkv
      split at hkv
      · exact Or.inl hkv
      · split at hkv
        · rcases mem_dictInsert hkv with h | h
          · exact Or.inl h
          · right
            rw [h]
            refine ⟨hInv.1, ?_⟩
            have hc := hInv.2.2
            rename_i hnotle hzero
            simp only
            omega
        · split at hkv
          · exact Or.inl hkv
          · have hloop := ida_loop_record ctx
              (fun c2 st2 t2 pv2 nd2 s2 => ida_search ctx fuel c2 st2 t2 pv2 nd2 s2)
              threshold
              (fun c' st' pv' nd' s' hI kv' hkv' => ih c' st' pv' nd' s' hI kv' hkv')
              c st pv nd (c + (ida_heuristic ctx nd).2) hInv
              (stepsNotSFL ctx pv)
              (fun x hx => by
                have := List.of_mem_filter hx
                simpa using this)
              none nd _ kv hkv
            exact hloop

/-- C7: every move sequence recorded as a solution by `ida_search` from the
driver's root call (empty path, `previousMove = none`, fresh search state)
contains no two consecutive same-face-layer related moves; indeed each
recursive step enumerates, in `moves_all` declaration order, exactly the
moves not same-face-layer related to `previousMove`. -/
theorem C7_no_consecutive_same_face (ctx : Ctx) (fuel threshold : Nat)
    (nodes : List Nat) (kv : List Nat × List Move)
    (hkv : kv ∈ (ida_search ctx fuel 0 [] threshold none nodes
        ⟨0, [], []⟩).2.2.ida_nodes) :
    chainOK ctx kv.2 = true ∧
    ∀ prev : Option Move,
      (stepsNotSFL ctx prev).Sublist ctx.moves_all ∧
      ∀ x ∈ stepsNotSFL ctx prev, ctx.sfl prev x = false := by
  have h := ida_search_record ctx threshold fuel 0 [] none nodes ⟨0, [], []⟩
    ⟨rfl, Or.inl rfl, rfl⟩ kv hkv
  rcases h with h | h
  · exact absurd h (List.not_mem_nil kv)
  · refine ⟨h.1, fun prev => ⟨List.filter_sublist _, fun x hx => ?_⟩⟩
    have := List.of_mem_filter hx
    simpa using this

/-- Closed witness for `C7_no_consecutive_same_face`: the one-move solution
recorded by the concrete search over `ctx7`. -/
theorem C7_witness :
    ([0], ["U"]) ∈ (ida_search ctx7 10 0 [] 2 none [1] ⟨0, [], []⟩).2.2.ida_nodes ∧
    chainOK ctx7 ["U"] = true :=
  ⟨by decide, (C7_no_consecutive_same_face ctx7 10 2 [1] ([0], ["U"]) (by decide)).1⟩

/-- C10: every move sequence recorded as a solution during a threshold-`T`
iteration of the driver's root call has length strictly less than `T`;
hence a solution of length `L` is first discoverable at threshold `L + 1`,
and a zero-length solution can only be recorded when `T ≥ 1`. -/
theorem C10_recorded_shorter_than_threshold (ctx : Ctx) (fuel threshold : Nat)
    (nodes : List Nat) (kv : List Nat × List Move)
    (hkv : kv ∈ (ida_search ctx fuel 0 [] threshold none nodes
        ⟨0, [], []⟩).2.2.ida_nodes) :
    kv.2.length < threshold ∧ (kv.2 = [] → 1 ≤ threshold) ∧
    ∀ L : Nat, kv.2.length = L → L + 1 ≤ threshold := by
  have h := ida_search_record ctx threshold fuel 0 [] none nodes ⟨0, [], []⟩
    ⟨rfl, Or.inl rfl, rfl⟩ kv hkv
  rcases h with h | h
  · exact absurd h (List.not_mem_nil kv)
  · refine ⟨h.2, fun he => ?_, fun L hL => by omega⟩
    have := h.2
    rw [he] at this
    simpa using this

/-- Closed witness for `C10_recorded_shorter_than_threshold`: the one-move
solution recorded at threshold 2 has length 1 < 2. -/
theorem C10_witness :
    ([0], ["U"]) ∈ (ida_search ctx7 10 0 [] 2 none [1] ⟨0, [], []⟩).2.2.ida_nodes ∧
    (([0], ["U"]) : List Nat × List Move).2.length < 2 :=
  ⟨by decide,
   (C10_recorded_shorter_than_threshold ctx7 10 2 [1] ([0], ["U"]) (by decide)).1⟩

/-- `get_best_loop` returns a minimum-length value, and (unless it returns
the accumulator unimproved) the first entry of that minimal length in
iteration order. -/
theorem get_best_loop_spec :
    ∀ (d : List (List Nat × List Move)) (cur : Option (List Move)) (m : List Move),
      get_best_loop cur d = some m →
      (∀ x ∈ d, m.length ≤ x.2.length) ∧
      (cur = some m ∨
        ∃ pre kv post, d = pre ++ kv :: post ∧ kv.2 = m ∧
          (∀ x ∈ pre, m.length < x.2.length) ∧
          (∀ m0, cur = some m0 → m.length < m0.length)) := by
  intro d
  induction d with
  | nil =>
      intro cur m h
      exact ⟨fun x hx => absurd hx (List.not_mem_nil x), Or.inl h⟩
  | cons kv rest ih =>
      intro cur m h
      match cur with
      | none =>
          have h' : get_best_loop (some kv.2) rest = some m := h
          obtain ⟨hmin, hdisj⟩ := ih (some kv.2) m h'
          have hkvle : m.length ≤ kv.2.length := by
            rcases hdisj with h2 | ⟨_, _, _, _, _, _, hlt2⟩
            · rw [Option.some.injEq] at h2
              rw [h2]
            · exact le_of_lt (hlt2 kv.2 rfl)
          refine ⟨?_, Or.inr ?_⟩
          · intro x hx
            rcases List.mem_cons.mp hx with hx | hx
            · rw [hx]; exact hkvle
            · exact hmin x hx
          · rcases hdisj with h2 | ⟨pre, kv', post, hd, hkv2, hpre, hlt2⟩
            · rw [Option.some.injEq] at h2
              exact ⟨[], kv, rest, rfl, h2,
                fun x hx => absurd hx (List.not_mem_nil x),
                fun m1 hm1 => by cases hm1⟩
            · refine ⟨kv :: pre, kv', post, by rw [hd, List.cons_append], hkv2, ?_,
                fun m1 hm1 => by cases hm1⟩
              intro x hx
              rcases List.mem_cons.mp hx with hx | hx
              · rw [hx]
                exact hlt2 kv.2 rfl
              · exact hpre x hx
      | some m0 =>
          by_cases hlt : kv.2.length < m0.length
          · have h' : get_best_loop (some kv.2) rest = some m := by
              simpa [get_best_loop, hlt] using h
            obtain ⟨hmin, hdisj⟩ := ih (some kv.2) m h'
            have hkvle : m.length ≤ kv.2.length := by
              rcases hdisj with h2 | ⟨_, _, _, _, _, _, hlt2⟩
              · rw [Option.some.injEq] at h2
                rw [h2]
              · exact le_of_lt (hlt2 kv.2 rfl)
            refine ⟨?_, Or.inr ?_⟩
            · intro x hx
              rcases List.mem_cons.mp hx with hx | hx
              · rw [hx]; exact hkvle
              · exact hmin x hx
            · rcases hdisj with h2 | ⟨pre, kv', post, hd, hkv2, hpre, hlt2⟩
              · rw [Option.some.injEq] at h2
                refine ⟨[], kv, rest, rfl, h2,
                  fun x hx => absurd hx (List.not_mem_nil x), ?_⟩
                intro m1 hm1
                rw [Option.some.injEq] at hm1
                subst hm1
                rw [← h2]
                exact hlt
              · refine ⟨kv :: pre, kv', post, by rw [hd, List.cons_append], hkv2, ?_, ?_⟩
                · intro x hx
                  rcases List.mem_cons.mp hx with hx | hx
                  · rw [hx]
                    exact hlt2 kv.2 rfl
                  · exact hpre x hx
                · intro m1 hm1
                  rw [Option.some.injEq] at hm1
                  subst hm1
                  exact lt_trans (hlt2 kv.2 rfl) hlt
          · have h' : get_best_loop (some m0) rest = some m := by
              simpa [get_best_loop, hlt] using h
            obtain ⟨hmin, hdisj⟩ := ih (some m0) m h'
            have hm0le : m.length ≤ m0.length := by
              rcases hdisj with h2 | ⟨_, _, _, _, _, _, hlt2⟩
              · rw [Option.some.injEq] at h2
                rw [h2]
              · exact le_of_lt (hlt2 m0 rfl)
            refine ⟨?_, ?_⟩
            · intro x hx
              rcases List.mem_cons.mp hx with hx | hx
              · rw [hx]
                exact le_trans hm0le (not_lt.mp hlt)
              · exact hmin x hx
            · rcases hdisj with h2 | ⟨pre, kv', post, hd, hkv2, hpre, hlt2⟩
              · exact Or.inl h2
              · refine Or.inr ⟨kv :: pre, kv', post, by rw [hd, List.cons_append], hkv2, ?_, ?_⟩
                · intro x hx
                  rcases List.mem_cons.mp hx with hx | hx
                  · rw [hx]
                    exact lt_of_lt_of_le (hlt2 m0 rfl) (not_lt.mp hlt)
                  · exact hpre x hx
                · intro m1 hm1
                  rw [Option.some.injEq] at hm1
                  subst hm1
                  exact hlt2 _ rfl

/-- The threshold loop can only fail by exhausting its threshold list, and
then the error carries the `original_*` snapshot parent. -/
theorem solveLoop_error (ctx : Ctx) (cb : Collab) (fuel : Nat)
    (prePar origPar : Parent) :
    ∀ (l : List Nat) (nodes : List Nat) (e : String × Parent),
      solveLoop ctx cb fuel prePar origPar l nodes = .error e →
      e = (noIDASolutionMsg, origPar) := by
  intro l
  induction l with
  | nil =>
      intro nodes e h
      simp only [solveLoop] at h
      exact (Except.error.inj h).symm
  | cons t rest ih =>
      intro nodes e h
      simp only [solveLoop] at h
      rcases hs : ida_search ctx fuel 0 [] t none nodes ⟨0, [], []⟩ with ⟨r1, nodes', s1⟩
      rw [hs] at h
      rcases hgb : get_best_ida_solution s1.ida_nodes with _ | best
      · rw [hgb] at h
        exact ih nodes' e h
      · rw [hgb] at h
        split at h
        · rename_i b2 heq
          rw [Option.some.injEq] at heq
          subst heq
          split at h
          · exact ih nodes' e h
          · cases h
        · rename_i heq
          exact Option.noConfusion heq

/-- When the threshold loop succeeds, the applied solution is the non-empty
value selected by `get_best_ida_solution` from some iteration's recorded
solutions, and the final parent is obtained by folding `rotate` over it
starting from the `pre_recolor_*` snapshot. -/
theorem solveLoop_ok (ctx : Ctx) (cb : Collab) (fuel : Nat)
    (prePar origPar : Parent) :
    ∀ (l : List Nat) (nodes : List Nat) (p' : Parent) (best : List Move),
      solveLoop ctx cb fuel prePar origPar l nodes = .ok (p', best) →
      best ≠ [] ∧ p' = best.foldl cb.rotate prePar ∧
      ∃ (t : Nat) (nodes0 : List Nat),
        get_best_ida_solution
          (ida_search ctx fuel 0 [] t none nodes0 ⟨0, [], []⟩).2.2.ida_nodes =
          some best := by
  intro l
  induction l with
  | nil =>
      intro nodes p' best h
      cases h
  | cons t rest ih =>
      intro nodes p' best h
      simp only [solveLoop] at h
      rcases hs : ida_search ctx fuel 0 [] t none nodes ⟨0, [], []⟩ with ⟨r1, nodes', s1⟩
      rw [hs] at h
      rcases hgb : get_best_ida_solution s1.ida_nodes with _ | b
      · rw [hgb] at h
        exact ih nodes' p' best h
      · rw [hgb] at h
        split at h
        · rename_i b2 heq
          rw [Option.some.injEq] at heq
          subst heq
          split at h
          · exact ih nodes' p' best h
          · rename_i he
            have h2 := Except.ok.inj h
            have hbest : b = best := congrArg Prod.snd h2
            have hpar : p' = b.foldl cb.rotate prePar := (congrArg Prod.fst h2).symm
            subst hbest
            refine ⟨fun hnil => he (by rw [hnil]; rfl), hpar, t, nodes, ?_⟩
            rw [hs]
            exact hgb
        · rename_i heq
          exact Option.noConfusion heq

/-- C2 (amended): whenever `solve` raises, the parent carried by the error
holds the `original_state` snapshot — taken after the recolor transform —
and the pre-search solution log.  The state therefore equals the pre-search
snapshot exactly when the recolor transform leaves it unchanged; the
solution log is always restored to its pre-search value. -/
theorem C2_restore_on_failure (ctx : Ctx) (cb : Collab) (fuel : Nat) (p : Parent)
    (rootNodes : List Nat) (minIda : Option Nat) (maxIda : Nat)
    (msg : String) (p' : Parent)
    (h : solve ctx cb fuel p rootNodes minIda maxIda = .error (msg, p')) :
    p'.state = (recolor ctx cb p).state ∧ p'.solution = p.solution := by
  simp only [solve] at h
  have hp : p' = recolor ctx cb p := by
    split at h
    · exact (congrArg Prod.snd (Except.error.inj h)).symm
    · split at h
      · exact (congrArg Prod.snd (Except.error.inj h)).symm
      · have := solveLoop_error ctx cb fuel p (recolor ctx cb p) _ rootNodes (msg, p') h
        exact congrArg Prod.snd this
  rw [hp]
  exact ⟨rfl, recolor_solution ctx cb p⟩

/-- Closed witness for `C2_restore_on_failure` at a concrete exhausted
search with a state-changing recolor transform. -/
theorem C2_witness :
    (⟨["b"], []⟩ : Parent).state = (recolor ctx2 cb1 ⟨["a"], []⟩).state ∧
    (⟨["b"], []⟩ : Parent).solution = (⟨["a"], []⟩ : Parent).solution :=
  C2_restore_on_failure ctx2 cb1 10 ⟨["a"], []⟩ [0] none 2
    noIDASolutionMsg ⟨["b"], []⟩ rfl

/-- C2 counterexample: with a recolor transform that rewrites position 0
from "a" to "b" and a goal that is never reachable, `solve` exhausts
thresholds 1..2 and raises `NoIDASolution` while the parent still holds
the recolored state `["b"]`, not the pre-search snapshot `["a"]` — refuting
"restores the puzzle collaborator's state ... to their pre-search snapshot
(... before any recolor transform)". -/
theorem C2_counterexample :
    solve ctx2 cb1 10 ⟨["a"], []⟩ [0] none 2 =
      .error (noIDASolutionMsg, ⟨["b"], []⟩) ∧
    (⟨["b"], []⟩ : Parent).state ≠ (⟨["a"], []⟩ : Parent).state :=
  ⟨rfl, by decide⟩

/-- C8 (amended): when the driver returns success, the applied move sequence
is a non-empty minimum-length entry of the recorded solutions of one
threshold iteration (ties broken by the first recorded, in iteration
order), and the final parent state results from resetting the puzzle to the
pre-recolor snapshot and applying exactly those moves via `rotate`, so the
recolor transform never appears in the externally visible state or
solution.  (Python's `if best_solution:` additionally skips a recorded
empty solution — see the C8 counterexample — so "at least one solution
recorded" must be strengthened to "at least one non-empty solution
selected".) -/
theorem C8_success_applies_best (ctx : Ctx) (cb : Collab) (fuel : Nat) (p : Parent)
    (rootNodes : List Nat) (minIda : Option Nat) (maxIda : Nat)
    (p' : Parent) (best : List Move)
    (h : solve ctx cb fuel p rootNodes minIda maxIda = .ok (p', best)) :
    best ≠ [] ∧ p' = best.foldl cb.rotate p ∧
    ∃ (t : Nat) (nodes0 : List Nat),
      get_best_ida_solution
        (ida_search ctx fuel 0 [] t none nodes0 ⟨0, [], []⟩).2.2.ida_nodes =
        some best ∧
      (∀ x ∈ (ida_search ctx fuel 0 [] t none nodes0 ⟨0, [], []⟩).2.2.ida_nodes,
        best.length ≤ x.2.length) ∧
      ∃ pre kv post,
        (ida_search ctx fuel 0 [] t none nodes0 ⟨0, [], []⟩).2.2.ida_nodes =
          pre ++ kv :: post ∧ kv.2 = best ∧
        ∀ x ∈ pre, best.length < x.2.length := by
  simp only [solve] at h
  split at h
  · cases h
  · split at h
    · cases h
    · obtain ⟨hne, hfold, t, nodes0, hgb⟩ :=
        solveLoop_ok ctx cb fuel p (recolor ctx cb p) _ rootNodes p' best h
      obtain ⟨hmin, hdisj⟩ := get_best_loop_spec _ none best hgb
      rcases hdisj with h2 | ⟨pre, kv, post, hd, hkv2, hpre, _⟩
      · cases h2
      · exact ⟨hne, hfold, t, nodes0, hgb, hmin, pre, kv, post, hd, hkv2, hpre⟩

/-- Closed witness for `C8_success_applies_best` at a concrete successful
search over `ctx7`. -/
theorem C8_witness :
    (["U"] : List Move) ≠ [] ∧
    (⟨["a"], ["U"]⟩ : Parent) = (["U"] : List Move).foldl cb1.rotate ⟨["a"], []⟩ ∧
    ∃ (t : Nat) (nodes0 : List Nat),
      get_best_ida_solution
        (ida_search ctx7 10 0 [] t none nodes0 ⟨0, [], []⟩).2.2.ida_nodes =
        some ["U"] ∧
      (∀ x ∈ (ida_search ctx7 10 0 [] t none nodes0 ⟨0, [], []⟩).2.2.ida_nodes,
        (["U"] : List Move).length ≤ x.2.length) ∧
      ∃ pre kv post,
        (ida_search ctx7 10 0 [] t none nodes0 ⟨0, [], []⟩).2.2.ida_nodes =
          pre ++ kv :: post ∧ kv.2 = ["U"] ∧
        ∀ x ∈ pre, (["U"] : List Move).length < x.2.length :=
  C8_success_applies_best ctx7 cb1 10 ⟨["a"], []⟩ [1] none 3 ⟨["a"], ["U"]⟩ ["U"] rfl

/-- C8 counterexample: on `ctx1` the root is already a goal, so the
threshold-1 iteration does record a solution (the empty one, which is also
the recorded minimum), yet the driver neither applies it nor returns
success — it exhausts all thresholds and raises — because
`if best_solution:` is falsy for the empty list. -/
theorem C8_counterexample :
    get_best_ida_solution
        (ida_search ctx1 10 0 [] 1 none [0] ⟨0, [], []⟩).2.2.ida_nodes =
      some [] ∧
    (ida_search ctx1 10 0 [] 1 none [0] ⟨0, [], []⟩).2.2.ida_nodes ≠ [] ∧
    solve ctx1 cb1 10 ⟨["a"], []⟩ [0] none 2 =
      .error (noIDASolutionMsg, ⟨["a"], []⟩) :=
  ⟨rfl, by decide, rfl⟩

/-- C1 (code bug): over `ctx1` the root aggregate node `[0]` has
`cost_to_goal = 0`, yet `solve` does not return a zero-length success: the
early-return block for `cost_to_goal == 0` is commented out (a triple-quoted
string, lines 306-317), each iteration with threshold ≥ 1 records the empty
solution which `if best_solution:` discards as falsy, nodes are expanded
(the threshold-0 iteration alone bumps `ida_count` to 1), and after
exhausting all thresholds `solve` raises `NoIDASolution`. -/
theorem C1_root_goal_bug :
    (ida_heuristic ctx1 [0]).2 = 0 ∧
    solve ctx1 cb1 10 ⟨["a"], []⟩ [0] none 2 =
      .error (noIDASolutionMsg, ⟨["a"], []⟩) ∧
    (ida_search ctx1 10 0 [] 0 none [0] ⟨0, [], []⟩).2.2.ida_count = 1 :=
  ⟨rfl, rfl, rfl⟩

/-- C9: construction fails exactly when some supplied illegal move is
missing from the candidate superset; on success the move list is the
`legal_moves` list verbatim when a non-empty one is supplied (the Python
default is `[]` and `if legal_moves:` is a truthiness test), and otherwise
the candidate superset with the illegal moves removed, preserving the
superset's order (the result is a sublist of the superset). -/
theorem C9_constructor (moves_all moves_illegal legal_moves : List Move) :
    (init_moves_all moves_all moves_illegal legal_moves = .error illegalMoveMsg ↔
      ∃ x ∈ moves_illegal, x ∉ moves_all) ∧
    (∀ ms, init_moves_all moves_all moves_illegal legal_moves = .ok ms →
      (legal_moves ≠ [] → ms = legal_moves) ∧
      (legal_moves = [] →
        ms = moves_all.filter (fun x => !moves_illegal.contains x) ∧
        ms.Sublist moves_all ∧ ∀ x ∈ ms, x ∉ moves_illegal)) := by
  by_cases hall : moves_illegal.all (fun x => moves_all.contains x)
  · constructor
    · constructor
      · intro h
        rw [init_moves_all, if_pos hall] at h
        cases h
      · intro ⟨x, hx, hnx⟩
        rw [List.all_eq_true] at hall
        exact absurd (by simpa using hall x hx) hnx
    · intro ms hms
      rw [init_moves_all, if_pos hall] at hms
      have hv := Except.ok.inj hms
      constructor
      · intro hne
        rw [← hv, if_neg (by simpa [List.isEmpty_iff] using hne)]
      · intro he
        rw [← hv, if_pos (by rw [he]; rfl)]
        refine ⟨rfl, List.filter_sublist _, fun x hx => ?_⟩
        have := List.of_mem_filter hx
        simpa using this
  · constructor
    · constructor
      · intro _
        rw [List.all_eq_true] at hall
        push_neg at hall
        obtain ⟨x, hx, hnx⟩ := hall
        exact ⟨x, hx, by simpa using hnx⟩
      · intro _
        rw [init_moves_all, if_neg hall]
    · intro ms hms
      rw [init_moves_all, if_neg hall] at hms
      cases hms

/-- Closed witness for `C9_constructor`: a rejected configuration, a
verbatim non-empty `legal_moves` list, and a filtered superset. -/
theorem C9_witness :
    (∃ x ∈ (["X"] : List Move), x ∉ (["U", "F"] : List Move)) ∧
    ((["A"] : List Move) ≠ [] → (["A"] : List Move) = ["A"]) ∧
    (["U"] : List Move) =
      (["U", "F"] : List Move).filter (fun x => !(["F"] : List Move).contains x) :=
  ⟨(C9_constructor ["U", "F"] ["X"] []).1.mp rfl,
   ((C9_constructor ["U", "F"] ["F"] ["A"]).2 ["A"] rfl).1,
   ((((C9_constructor ["U", "F"] ["F"] []).2 ["U"] rfl).2) rfl).1⟩

end RubiksIda
